import Mathlib

/-!
Verification of the next-dev-server core (route resolution, transform cache,
mock request/response execution model) against its natural-language
specification.  The TypeScript sources are embedded shallowly: pure helper
functions become Lean functions, the mutable `Map`/object state becomes
explicit state passing, and the virtual-filesystem collaborator becomes an
abstract structure of query functions.
-/

namespace NextDevServer

/-! ## JavaScript string semantics

The JS string methods the server uses are modelled on the character list
of the Lean string (the server only ever manipulates ASCII paths, header
names, and HTTP methods, where JS UTF-16 code units and characters
coincide). -/

/-- JS `s.startsWith(pre)`. -/
def jsStartsWith (s pre : String) : Bool := pre.data.isPrefixOf s.data

/-- JS `s.endsWith(suf)`. -/
def jsEndsWith (s suf : String) : Bool :=
  suf.data.reverse.isPrefixOf s.data.reverse

/-- JS `s.includes(c)` for a one-character needle. -/
def jsContainsChar (s : String) (c : Char) : Bool := s.data.contains c

/-- JS `s.slice(n)` for a nonnegative start index. -/
def jsDrop (s : String) (n : Nat) : String := String.mk (s.data.drop n)

/-- Drop the `n` last elements of a list. -/
def dropTail {α : Type} (l : List α) (n : Nat) : List α :=
  l.take (l.length - n)

/-- Drop the `n` last characters (as in JS `s.slice(a, -n)`). -/
def jsDropRight (s : String) (n : Nat) : String :=
  String.mk (dropTail s.data n)

/-- Split a character list at every occurrence of the separator. -/
def splitCharList (c : Char) : List Char → List (List Char)
  | [] => [[]]
  | x :: xs =>
    let r := splitCharList c xs
    if x == c then [] :: r
    else
      match r with
      | [] => [[x]]
      | y :: ys => (x :: y) :: ys

/-- JS `s.split(sep)` for a one-character separator. -/
def jsSplitChar (c : Char) (s : String) : List String :=
  (splitCharList c s.data).map String.mk

/-- JS `s.trim()`. -/
def jsTrim (s : String) : String :=
  String.mk
    (((s.data.dropWhile Char.isWhitespace).reverse.dropWhile
      Char.isWhitespace).reverse)

/-- JS `s.toUpperCase()` on ASCII text. -/
def jsToUpper (s : String) : String := String.mk (s.data.map Char.toUpper)

/-- JS `s.toLowerCase()` on ASCII text. -/
def jsToLower (s : String) : String := String.mk (s.data.map Char.toLower)

/-- Split a character list around the first occurrence of `pat`: the part
before it and the part after it, or `none` when `pat` does not occur. -/
def findSplit (pat : List Char) : List Char → Option (List Char × List Char)
  | [] => if pat.isEmpty then some ([], []) else none
  | x :: xs =>
    if pat.isPrefixOf (x :: xs) then some ([], (x :: xs).drop pat.length)
    else (findSplit pat xs).map (fun ab => (x :: ab.1, ab.2))

/-- JS `s.replace(pat, repl)` with a string pattern: replace only the
first occurrence of `pat`, or return `s` unchanged when absent. -/
def replaceFirst (s pat repl : String) : String :=
  match findSplit pat.data s.data with
  | none => s
  | some ab => String.mk (ab.1 ++ repl.data ++ ab.2)

/-! ## JavaScript collection semantics

JS `Map` iterates in insertion order; `set` on an existing key updates the
value in place, keeping the key at its original position; `delete` removes
an entry.  Plain objects used as string-keyed dictionaries behave the same
way for the operations the server uses.  We model both as association
lists in insertion order. -/

/-- JS `map.get(k)` / `obj[k]`: the value stored under the first (unique)
occurrence of the key, if any. -/
def jsMapGet {α : Type} (m : List (String × α)) (k : String) : Option α :=
  (m.find? (fun p => p.1 == k)).map (fun p => p.2)

/-- JS `map.set(k, v)` / `obj[k] = v`: update in place when the key is
present (keeping its insertion position), otherwise append at the end. -/
def jsMapSet {α : Type} (m : List (String × α)) (k : String) (v : α) :
    List (String × α) :=
  match m with
  | [] => [(k, v)]
  | (k1, v1) :: rest =>
    if k1 == k then (k, v) :: rest else (k1, v1) :: jsMapSet rest k v

/-- Keys of the modelled map, in insertion order (JS `map.keys()`). -/
def jsMapKeys {α : Type} (m : List (String × α)) : List String :=
  m.map (fun p => p.1)

/-! ## Transform cache (`transformAndServe`)

The server keeps `transformCache : Map<string, \x7b code, hash \x7d>`.  On a
request for a file that needs transformation it reads the file, hashes the
content, and either serves the cached compiled code (when the stored hash
matches) or invokes the transform, stores the result, and evicts the
earliest-inserted entry when the map has grown beyond 500 entries. -/

/-- A transform-cache entry: `\x7b code: string; hash: string \x7d`. -/
structure TEntry where
  code : String
  hash : String
deriving Repr, DecidableEq

/-- Modelled from the spec: the content-hash function `simpleHash` is
imported from `../utils/hash`, which is not among the sources under study.
The spec (§3, §4.6) specifies a content hash and treats cache staleness as
purely content-addressed, so the hash is modelled as an injective function
of the content (the identity embedding). -/
def simpleHash (content : String) : String := content

/-- Result of one `transformAndServe` call, restricted to the cache-visible
behavior: the cache after the call, the compiled code served, and whether
the call was a cache hit (`X-Cache: hit`, i.e. the transform function was
NOT invoked). -/
structure TransformOutcome where
  cache : List (String × TEntry)
  code : String
  cacheHit : Bool
deriving Repr, DecidableEq

/-- The miss path of `transformAndServe`: invoke the transform, store
`\x7b code, hash \x7d` under the file path, and if the map now holds more than
500 entries delete the first key returned by the key iterator (JS guards
the deletion with `if (firstKey)`, so a falsy — empty-string — first key is
not deleted). -/
def transformMiss (transformCode : String → String → String)
    (cache : List (String × TEntry)) (filePath content hash : String) :
    TransformOutcome :=
  let transformed := transformCode content filePath
  let cache1 := jsMapSet cache filePath { code := transformed, hash := hash }
  let cache2 :=
    if cache1.length > 500 then
      match cache1 with
      | [] => cache1
      | (k, v) :: rest => if k == "" then (k, v) :: rest else rest
    else cache1
  { cache := cache2, code := transformed, cacheHit := false }

/-- `transformAndServe(filePath, _)`, reduced to its cache behavior: read
the file content, hash it, serve the cached code when the stored hash for
the path matches, otherwise recompile and store.  `readFile` stands for
`this.vfs.readFileSync` and `transformCode` for `this.transformCode`. -/
def transformAndServe (transformCode : String → String → String)
    (readFile : String → String) (cache : List (String × TEntry))
    (filePath : String) : TransformOutcome :=
  let content := readFile filePath
  let hash := simpleHash content
  match jsMapGet cache filePath with
  | some cached =>
    if cached.hash == hash then
      { cache := cache, code := cached.code, cacheHit := true }
    else transformMiss transformCode cache filePath content hash
  | none => transformMiss transformCode cache filePath content hash

/-- A server run restricted to its transform-cache effects: fold a list of
transform-and-serve operations (each a transform function, a filesystem
content state, and a requested file path) over the initially empty cache
the server starts with. -/
def runTransforms
    (ops : List ((String → String → String) × (String → String) × String)) :
    List (String × TEntry) :=
  ops.foldl (fun cache op => (transformAndServe op.1 op.2.1 cache op.2.2).cache) []

/-! ## Mock response objects

`createMockResponse` (buffered) and `createStreamingMockResponse` build
closures over mutable local state.  We model one handler call on the
response object as a state transition.  The `resolveCount` field counts how
many times `resolveEnded` (the response-complete signal) has been invoked;
in the source it is invoked exactly inside `markEnded`. -/

/-- One call a handler can make on the mock response object.  `json` and
`sendObj` carry the already-serialized payload (`JSON.stringify(data)`);
`sendStr` is `send` with a string argument (`typeof data === 'object'`
false).  `redirectCode` is `redirect(statusCode, url?)`, `redirectUrl` is
`redirect(url)`. -/
inductive ResCall where
  | status (code : Nat)
  | setHeader (name value : String)
  | write (chunk : String)
  | json (data : String)
  | sendStr (data : String)
  | sendObj (data : String)
  | endCall (data : Option String)
  | redirectCode (code : Nat) (url : Option String)
  | redirectUrl (url : String)
deriving Repr, DecidableEq

/-- Calls that invoke `markEnded` (terminal methods). -/
def ResCall.isTerminal : ResCall → Bool
  | .json _ | .sendStr _ | .sendObj _ | .endCall _ => true
  | .redirectCode _ _ | .redirectUrl _ => true
  | .status _ | .setHeader _ _ | .write _ => false

/-- The `write` calls (the only buffered-response method that marks
headers as sent). -/
def ResCall.isWrite : ResCall → Bool
  | .write _ => true
  | _ => false

/-- State of the buffered mock response (`createMockResponse`).  The local
variable `headersSent` and the exposed property `this.headersSent` are
always updated together in the source, so a single field models both. -/
structure BufferedRes where
  statusCode : Nat := 200
  statusMessage : String := "OK"
  headers : List (String × String) := []
  responseBody : String := ""
  ended : Bool := false
  resolveCount : Nat := 0
  headersSent : Bool := false
deriving Repr, DecidableEq

/-- `markEnded` of the buffered response: resolve the ended promise once. -/
def BufferedRes.markEnded (s : BufferedRes) : BufferedRes :=
  if s.ended then s
  else { s with ended := true, resolveCount := s.resolveCount + 1 }

/-- One method call on the buffered mock response.  `write` sets
`headersSent` (it is the only method that does) and appends to the body;
`json`/`send` overwrite the body and end; `end(data)` appends `data` when
it is truthy and ends; `redirect` sets the status and `Location` header
and ends. -/
def BufferedRes.step (s : BufferedRes) : ResCall → BufferedRes
  | .status code => { s with statusCode := code }
  | .setHeader n v => { s with headers := jsMapSet s.headers n v }
  | .write chunk =>
    { s with headersSent := true, responseBody := s.responseBody ++ chunk }
  | .json data =>
    BufferedRes.markEnded
      { s with
        headers :=
          jsMapSet s.headers "Content-Type" "application/json; charset=utf-8",
        responseBody := data }
  | .sendObj data =>
    BufferedRes.markEnded
      { s with
        headers :=
          jsMapSet s.headers "Content-Type" "application/json; charset=utf-8",
        responseBody := data }
  | .sendStr data => BufferedRes.markEnded { s with responseBody := data }
  | .endCall data =>
    match data with
    | some d =>
      if d == "" then BufferedRes.markEnded s
      else BufferedRes.markEnded { s with responseBody := s.responseBody ++ d }
    | none => BufferedRes.markEnded s
  | .redirectCode code url =>
    BufferedRes.markEnded
      { s with
        statusCode := code,
        headers := jsMapSet s.headers "Location" (url.getD "/") }
  | .redirectUrl url =>
    BufferedRes.markEnded
      { s with statusCode := 307, headers := jsMapSet s.headers "Location" url }

/-- Run a handler call sequence on a fresh buffered mock response. -/
def bufRun (calls : List ResCall) : BufferedRes :=
  calls.foldl BufferedRes.step {}

/-! ### Streaming mock response -/

/-- An observable callback invocation of the streaming response:
`onStart(statusCode, statusMessage, headers)`, `onChunk(data)`, or
`onEnd()` (constructor `done`). -/
inductive StreamEv where
  | start (statusCode : Nat) (statusMessage : String)
      (headers : List (String × String))
  | chunk (data : String)
  | done
deriving Repr, DecidableEq

/-- State of the streaming mock response (`createStreamingMockResponse`).
`events` records the callback invocations in order. -/
structure StreamingRes where
  statusCode : Nat := 200
  statusMessage : String := "OK"
  headers : List (String × String) := []
  ended : Bool := false
  headersSent : Bool := false
  resolveCount : Nat := 0
  events : List StreamEv := []
deriving Repr, DecidableEq

/-- `sendHeaders`: on first call, mark headers sent and fire `onStart` with
the current status and headers. -/
def StreamingRes.sendHeaders (s : StreamingRes) : StreamingRes :=
  if s.headersSent then s
  else
    { s with
      headersSent := true,
      events := s.events ++ [.start s.statusCode s.statusMessage s.headers] }

/-- `markEnded` of the streaming response: on first call, send headers if
needed, fire `onEnd`, and resolve the ended promise. -/
def StreamingRes.markEnded (s : StreamingRes) : StreamingRes :=
  if s.ended then s
  else
    let s1 := StreamingRes.sendHeaders s
    { s1 with
      ended := true,
      events := s1.events ++ [.done],
      resolveCount := s1.resolveCount + 1 }

/-- Fire `onChunk(data)`. -/
def StreamingRes.emitChunk (s : StreamingRes) (data : String) : StreamingRes :=
  { s with events := s.events ++ [.chunk data] }

/-- One method call on the streaming mock response.  `write` sends headers
then streams the chunk without ending; `json`/`send` send headers, stream
the payload, and end; `end(data)` streams `data` first when it is truthy;
`redirect` only ends (which itself sends headers). -/
def StreamingRes.step (s : StreamingRes) : ResCall → StreamingRes
  | .status code => { s with statusCode := code }
  | .setHeader n v => { s with headers := jsMapSet s.headers n v }
  | .write chunk => (StreamingRes.sendHeaders s).emitChunk chunk
  | .json data =>
    let s1 := { s with
      headers :=
        jsMapSet s.headers "Content-Type" "application/json; charset=utf-8" }
    StreamingRes.markEnded ((StreamingRes.sendHeaders s1).emitChunk data)
  | .sendObj data =>
    let s1 := { s with
      headers :=
        jsMapSet s.headers "Content-Type" "application/json; charset=utf-8" }
    StreamingRes.markEnded ((StreamingRes.sendHeaders s1).emitChunk data)
  | .sendStr data =>
    StreamingRes.markEnded ((StreamingRes.sendHeaders s).emitChunk data)
  | .endCall data =>
    match data with
    | some d =>
      if d == "" then StreamingRes.markEnded s
      else StreamingRes.markEnded ((StreamingRes.sendHeaders s).emitChunk d)
    | none => StreamingRes.markEnded s
  | .redirectCode code url =>
    StreamingRes.markEnded
      { s with
        statusCode := code,
        headers := jsMapSet s.headers "Location" (url.getD "/") }
  | .redirectUrl url =>
    StreamingRes.markEnded
      { s with statusCode := 307, headers := jsMapSet s.headers "Location" url }

/-- Run a handler call sequence on a fresh streaming mock response. -/
def streamRun (calls : List ResCall) : StreamingRes :=
  calls.foldl StreamingRes.step {}

/-- Calls that cause an `onChunk` invocation on the streaming response:
`write`, `json`, `send`, and `end` with truthy data. -/
def ResCall.producesChunk : ResCall → Bool
  | .write _ | .json _ | .sendStr _ | .sendObj _ => true
  | .endCall (some d) => d != ""
  | .endCall none => false
  | .status _ | .setHeader _ _ | .redirectCode _ _ | .redirectUrl _ => false

/-- Shape of the streaming event log while no terminal call has occurred:
either nothing has been observed (headers not sent), or a single `onStart`
followed only by `onChunk` events (headers sent). -/
def StreamPreShape (s : StreamingRes) : Prop :=
  (s.headersSent = false ∧ s.events = []) ∨
  (s.headersSent = true ∧
    ∃ (n : Nat) (m : String) (h : List (String × String)) (cs : List String),
      s.events = StreamEv.start n m h :: cs.map StreamEv.chunk)

/-! ## App Router route-handler method dispatch (`handleAppRouteHandler`)

After loading a nested `route.<ext>` module the server looks up the
exported handler with
`module.exports[methodUpper] || module.exports[methodUpper.toLowerCase()]`
and returns a 405 response when the resulting value is not a function. -/

/-- The JS value found under an export name, classified by what the
dispatch code observes: `typeof v === 'function'` and truthiness.
`undef` covers an absent export (`undefined`, falsy). -/
inductive JsExportVal where
  | undef
  | fn
  | truthyNonFn
  | falsyNonFn
deriving Repr, DecidableEq

/-- JS truthiness of the classified export value. -/
def JsExportVal.truthy : JsExportVal → Bool
  | .fn | .truthyNonFn => true
  | .undef | .falsyNonFn => false

/-- JS `a || b`. -/
def jsOr (a b : JsExportVal) : JsExportVal := if a.truthy then a else b

/-- Outcome of the method-dispatch step of `handleAppRouteHandler`: either
the handler is invoked, or the request is rejected with the given status
code and message. -/
inductive DispatchOutcome where
  | invoked
  | rejected (statusCode : Nat) (statusMessage : String)
deriving Repr, DecidableEq

/-- The method-dispatch step of `handleAppRouteHandler` (the route file has
already been resolved and loaded): uppercase the request method, look up
`module.exports[methodUpper] || module.exports[methodUpper.toLowerCase()]`,
and answer 405 Method Not Allowed when that value is not a function.
`moduleExports` maps an export name to the classified value stored there. -/
def appRouteMethodDispatch (method : String)
    (moduleExports : String → JsExportVal) : DispatchOutcome :=
  let methodUpper := jsToUpper method
  let handler :=
    jsOr (moduleExports methodUpper) (moduleExports (jsToLower methodUpper))
  if handler == .fn then .invoked
  else .rejected 405 "Method Not Allowed"

/-! ## URL handling and the mock request (`handleRequest`,
`createMockRequest`)

`handleRequest` parses the request url with `new URL(url, base)` and from
then on passes only `urlObj.pathname` (possibly with virtual/asset/base
prefixes sliced off) down to `handleApiRoute`, which hands it to
`createMockRequest`; the mock request re-parses that bare pathname and
derives `query` from its search params.

The WHATWG `URL` platform parser is modelled by the properties these
functions rely on: the search string is what follows the first `?` (a
fragment starting at the first `#` is cut off first), and the pathname is
what precedes it — in particular a parsed pathname never contains a
literal `?` or `#`.  Percent-decoding and path normalization are omitted:
they never introduce these delimiter characters. -/

/-- Characters of `s` strictly before the first occurrence of `c`. -/
def takeUntilChar (c : Char) (s : String) : String :=
  ⟨s.data.takeWhile (fun x => x ≠ c)⟩

/-- Characters of `s` strictly after the first occurrence of `c` (empty
when `c` does not occur). -/
def dropThroughChar (c : Char) (s : String) : String :=
  match s.data.dropWhile (fun x => x ≠ c) with
  | [] => ⟨[]⟩
  | _ :: rest => ⟨rest⟩

/-- Model of `urlObj.pathname`: the part before the fragment and before
the query string. -/
def urlPathname (url : String) : String :=
  takeUntilChar '?' (takeUntilChar '#' url)

/-- Model of the raw search text of `urlObj` (without the leading `?`):
what follows the first `?` of the fragment-stripped url. -/
def urlSearchText (url : String) : String :=
  dropThroughChar '?' (takeUntilChar '#' url)

/-- Model of `Object.fromEntries(urlObj.searchParams)` as an ordered list
of pairs: split the search text on `&`, drop empty pieces, and split each
piece at its first `=` (percent/plus decoding is omitted; no claim
evaluates it on a non-empty search text). -/
def urlSearchPairs (url : String) : List (String × String) :=
  let text := urlSearchText url
  if text == "" then []
  else
    (jsSplitChar '&' text).filterMap (fun piece =>
      if piece == "" then none
      else some (takeUntilChar '=' piece, dropThroughChar '=' piece))

/-- `parseCookies`: split the cookie header on `;`, trim each piece, split
it at `=`, and record the pair when both parts are truthy (non-empty).
`decodeURIComponent` is modelled as the identity (no claim depends on the
decoding). -/
def parseCookies (cookieHeader : String) : List (String × String) :=
  if cookieHeader == "" then []
  else
    (jsSplitChar ';' cookieHeader).foldl
      (fun acc cookie =>
        let t := jsTrim cookie
        let name := takeUntilChar '=' t
        let value := dropThroughChar '=' t
        if name != "" && value != "" then jsMapSet acc name value else acc)
      []

/-- The mock request object handed to Pages-router API handlers.  `body`
keeps the raw buffer text (`JSON.parse` is outside the claims). -/
structure MockRequest where
  method : String
  url : String
  headers : List (String × String)
  query : List (String × String)
  body : Option String
  cookies : List (String × String)
deriving Repr, DecidableEq

/-- `createMockRequest(method, pathname, headers, body)`: build
`new URL(pathname, base)` and derive `query` from its search params and
`cookies` from the cookie header. -/
def createMockRequest (method pathname : String)
    (headers : List (String × String)) (body : Option String) : MockRequest :=
  { method := method
    url := pathname
    headers := headers
    query := urlSearchPairs pathname
    body := body
    cookies := parseCookies ((jsMapGet headers "cookie").getD "") }

/-- The virtual-prefix strip of `handleRequest`: the regex
`^\/__virtual__\/\d+` matched against the pathname; on a match, slice off
the matched prefix (falling back to the root path when the rest is
empty). -/
def stripVirtualPre (pathname : String) : String :=
  let pre := "/__virtual__/"
  if jsStartsWith pathname pre then
    let rest := jsDrop pathname pre.length
    let digits := rest.data.takeWhile Char.isDigit
    if digits.isEmpty then pathname
    else
      let sliced := jsDrop pathname (pre.length + digits.length)
      if sliced == "" then "/" else sliced
  else pathname

/-- The assetPrefix strip of `handleRequest`: when the configured prefix
is truthy and leads the pathname and the rest is empty or starts with a
slash, keep the rest (or the root path), collapsing a leading double
slash. -/
def stripAssetPre (assetPre pathname : String) : String :=
  if assetPre != "" && jsStartsWith pathname assetPre then
    let rest := jsDrop pathname assetPre.length
    if rest == "" || jsStartsWith rest "/" then
      let p := if rest == "" then "/" else rest
      if jsStartsWith p "//" then jsDrop p 1 else p
    else pathname
  else pathname

/-- The basePath strip of `handleRequest`. -/
def stripBasePath (basePath pathname : String) : String :=
  if basePath != "" && jsStartsWith pathname basePath then
    let rest := jsDrop pathname basePath.length
    if rest == "" || jsStartsWith rest "/" then
      if rest == "" then "/" else rest
    else pathname
  else pathname

/-- The pathname `handleRequest` computes from the request url and then
passes to `handleApiRoute` (and the other branches): `urlObj.pathname`
with the virtual, assetPrefix, and basePath prefixes stripped. -/
def requestPathname (assetPre basePath url : String) : String :=
  stripBasePath basePath (stripAssetPre assetPre (stripVirtualPre (urlPathname url)))

/-- The mock request `handleApiRoute` builds for a Pages-router API
request: `createMockRequest(method, pathname, headers, body)` with the
dispatcher's pathname. -/
def apiMockRequest (assetPre basePath method url : String)
    (headers : List (String × String)) (body : Option String) : MockRequest :=
  createMockRequest method (requestPathname assetPre basePath url) headers body

/-! ## Filesystem collaborator and path helpers -/

/-- The filesystem collaborator as seen by the resolvers: existence check
(`this.exists`), is-directory check (`this.isDirectory`), and directory
listing (`this.vfs.readdirSync`).  The resolvers wrap every `readdirSync`
call in try/catch and treat a failure as "no entries", so a failing read
is modelled by an empty list. -/
structure VFS where
  pathExists : String → Bool
  isDir : String → Bool
  readdir : String → List String

/-- The page/layout extension preference order used by both resolvers. -/
def pageExtensions : List String := [".jsx", ".tsx", ".js", ".ts"]

/-- The dynamic-file-name regex `^\[([^\]]+)\]$`: an opening bracket, a
nonempty run of non-bracket characters, a closing bracket. -/
def isDynFileName (s : String) : Bool :=
  jsStartsWith s "[" && jsEndsWith s "]" && decide (s.length ≥ 3) &&
    (dropTail (s.data.drop 1) 1).all (fun c => c != ']')

/-- The route-group regex `^\([^)]+\)$`. -/
def isRouteGroupName (s : String) : Bool :=
  jsStartsWith s "(" && jsEndsWith s ")" && decide (s.length ≥ 3) &&
    (dropTail (s.data.drop 1) 1).all (fun c => c != ')')

/-! ## Pages-router resolution (`resolvePageFile`, `resolveDynamicRoute`) -/

/-- The leaf case of the dynamic Pages resolver: try
`<dir>/index.<ext>` for each supported extension. -/
def findIndexFile (fs : VFS) (dirPath : String) : Option String :=
  pageExtensions.findSome? (fun ext =>
    let indexPath := dirPath ++ "/index" ++ ext
    if fs.pathExists indexPath then some indexPath else none)

/-- `tryPath` of `resolveDynamicRoute`: per segment, try in order an exact
file match (`<dir>/<segment>.<ext>` when on the last segment), an exact
directory match (recursing into it, backtracking on failure), and then
each directory entry as a dynamic file (`[x].<ext>` on the last segment),
a dynamic directory (`[x]`, recursing, backtracking on failure), or a
catch-all file (`[...x].<ext>`). -/
def pagesTryPath (fs : VFS) (dirPath : String) (remaining : List String) :
    Option String :=
  match remaining with
  | [] => findIndexFile fs dirPath
  | current :: rest =>
    let exactPath := dirPath ++ "/" ++ current
    let fileHit := pageExtensions.findSome? (fun ext =>
      if rest.isEmpty && fs.pathExists (exactPath ++ ext) then
        some (exactPath ++ ext)
      else none)
    match fileHit with
    | some f => some f
    | none =>
      let literal :=
        if fs.isDir exactPath then pagesTryPath fs exactPath rest else none
      match literal with
      | some f => some f
      | none =>
        (fs.readdir dirPath).findSome? (fun entry =>
          let dynFile := pageExtensions.findSome? (fun ext =>
            let nameWithoutExt := replaceFirst entry ext ""
            if jsEndsWith entry ext && isDynFileName nameWithoutExt then
              if rest.isEmpty then
                let filePath := dirPath ++ "/" ++ entry
                if fs.pathExists filePath then some filePath else none
              else none
            else none)
          match dynFile with
          | some f => some f
          | none =>
            let dynDir :=
              if jsStartsWith entry "[" && jsEndsWith entry "]" &&
                  !(jsContainsChar entry '.') then
                let dynamicPath := dirPath ++ "/" ++ entry
                if fs.isDir dynamicPath then pagesTryPath fs dynamicPath rest
                else none
              else none
            match dynDir with
            | some f => some f
            | none =>
              pageExtensions.findSome? (fun ext =>
                if jsStartsWith entry "[..." && jsEndsWith entry ("]" ++ ext) then
                  let filePath := dirPath ++ "/" ++ entry
                  if fs.pathExists filePath then some filePath else none
                else none))

/-- `resolveDynamicRoute(pathname)`: split the pathname into nonempty
segments and run the backtracking walk from the pages directory. -/
def resolveDynamicRoute (fs : VFS) (pagesDir pathname : String) :
    Option String :=
  let segments := (jsSplitChar '/' pathname).filter (fun s => s != "")
  if segments.isEmpty then none
  else pagesTryPath fs pagesDir segments

/-- `resolvePageFile(pathname)`: rewrite the root path to `/index`, then
try an exact file, then `<pathname>/index.<ext>`, then the dynamic
resolver. -/
def resolvePageFile (fs : VFS) (pagesDir pathname0 : String) :
    Option String :=
  let pathname := if pathname0 == "/" then "/index" else pathname0
  let exact := pageExtensions.findSome? (fun ext =>
    let filePath := pagesDir ++ pathname ++ ext
    if fs.pathExists filePath then some filePath else none)
  match exact with
  | some f => some f
  | none =>
    let idx := pageExtensions.findSome? (fun ext =>
      let filePath := pagesDir ++ pathname ++ "/index" ++ ext
      if fs.pathExists filePath then some filePath else none)
    match idx with
    | some f => some f
    | none => resolveDynamicRoute fs pagesDir pathname

/-! ## App-router resolution (`resolveAppDynamicRoute`) -/

/-- A resolved route parameter value: a single segment string or the
ordered list of remaining segments (catch-all). -/
inductive ParamVal where
  | str (s : String)
  | strList (l : List String)
deriving Repr, DecidableEq

/-- An App-router resolution result (`AppRoute`). -/
structure AppRoute where
  page : String
  layouts : List String
  params : List (String × ParamVal)
  loading : Option String := none
  error : Option String := none
  notFound : Option String := none
deriving Repr, DecidableEq

/-- `collectLayout(dirPath, layouts)`: append `<dir>/layout.<ext>` for the
first extension whose layout file exists and is not already collected;
otherwise return the list unchanged. -/
def collectLayout (fs : VFS) (dirPath : String) (layouts : List String) :
    List String :=
  match pageExtensions.findSome? (fun ext =>
    let layoutPath := dirPath ++ "/layout" ++ ext
    if fs.pathExists layoutPath && !(layouts.contains layoutPath) then
      some layoutPath
    else none) with
  | some p => layouts ++ [p]
  | none => layouts

/-- `findPage(dirPath)`: the first existing `<dir>/page.<ext>`. -/
def findPage (fs : VFS) (dirPath : String) : Option String :=
  pageExtensions.findSome? (fun ext =>
    let pagePath := dirPath ++ "/page" ++ ext
    if fs.pathExists pagePath then some pagePath else none)

/-- `findConventionFile(dirPath, name)`: the first existing
`<dir>/<name>.<ext>`. -/
def findConventionFile (fs : VFS) (dirPath name : String) : Option String :=
  pageExtensions.findSome? (fun ext =>
    let filePath := dirPath ++ "/" ++ name ++ ext
    if fs.pathExists filePath then some filePath else none)

/-- JS `current.replace(/\/[^/]+$/, '')`: drop a final slash followed by a
nonempty run of non-slash characters; return the string unchanged when no
such suffix exists. -/
def dropLastSeg (s : String) : String :=
  if (s.data.reverse.takeWhile (fun c => c != '/')).isEmpty then s
  else
    match s.data.reverse.dropWhile (fun c => c != '/') with
    | [] => s
    | _ :: tail => String.mk tail.reverse

/-- The upward walk of `findNearestConventionFile`: starting from the
page's directory, look for the convention file and move to the parent
directory while the current path still starts with the app directory,
stopping when `replace` makes no progress.  The walk is driven by an
explicit step budget so that it is structurally recursive: the entry
point supplies `current.length + 1` steps, and since each productive
`replace` strictly shortens the path (a nonempty `/segment` suffix is
removed) the zero-budget case is unreachable and the budget never cuts
the walk short. -/
def findNearestGo (fs : VFS) (appDir name : String) :
    Nat → String → Option String
  | 0, _ => none
  | fuel + 1, current =>
    if jsStartsWith current appDir then
      match findConventionFile fs current name with
      | some f => some f
      | none =>
        let parent := dropLastSeg current
        if parent == current then none
        else findNearestGo fs appDir name fuel parent
    else none

/-- `findNearestConventionFile(dirPath, name)`. -/
def findNearestConventionFile (fs : VFS) (appDir dirPath name : String) :
    Option String :=
  findNearestGo fs appDir name (dirPath.length + 1) dirPath

/-- `getRouteGroups(dirPath)`: the directory entries matching `(name)`
that are directories. -/
def getRouteGroups (fs : VFS) (dirPath : String) : List String :=
  (fs.readdir dirPath).filter (fun e =>
    isRouteGroupName e && fs.isDir (dirPath ++ "/" ++ e))

/-- Build the `AppRoute` returned at a terminal directory: page and
layouts plus the nearest-ancestor convention files. -/
def mkAppRoute (fs : VFS) (appDir page : String) (layouts : List String)
    (params : List (String × ParamVal)) (dirPath : String) : AppRoute :=
  { page := page
    layouts := layouts
    params := params
    loading := findNearestConventionFile fs appDir dirPath "loading"
    error := findNearestConventionFile fs appDir dirPath "error"
    notFound := findNearestConventionFile fs appDir dirPath "not-found" }

/-- The no-segments-left case of `tryPath` (with the layout of the
terminal directory already collected into `layouts`): look for a page
file directly, then for a page inside each route-group child of the
terminal directory. -/
def appTerminalStep (fs : VFS) (appDir dirPath : String)
    (layouts : List String) (params : List (String × ParamVal)) :
    Option AppRoute :=
  match findPage fs dirPath with
  | some page => some (mkAppRoute fs appDir page layouts params dirPath)
  | none =>
    (getRouteGroups fs dirPath).findSome? (fun group =>
      let groupPath := dirPath ++ "/" ++ group
      let groupLayouts := collectLayout fs groupPath layouts
      match findPage fs groupPath with
      | some page =>
        some (mkAppRoute fs appDir page groupLayouts params groupPath)
      | none => none)

/-- `tryPath` of `resolveAppDynamicRoute`.  At each visited directory the
layout is collected first.  With no segments left: `appTerminalStep`.
Otherwise try, in order and with backtracking: the literal child
directory; each route group (the literal child inside it, then its
catch-all / optional catch-all / single-dynamic entries); and the
catch-all / optional catch-all / single-dynamic entries of the current
directory.  The source's catch-all branches recurse with an empty
remaining-segments list; since the recursive call with no segments left
is by definition `collectLayout` followed by `appTerminalStep`, those
calls appear here in that inlined form (keeping the recursion
structural on the segment list). -/
def appTryPath (fs : VFS) (appDir dirPath : String)
    (remaining : List String) (layouts0 : List String)
    (params : List (String × ParamVal)) : Option AppRoute :=
  let layouts := collectLayout fs dirPath layouts0
  match remaining with
  | [] => appTerminalStep fs appDir dirPath layouts params
  | current :: rest =>
    let exactPath := dirPath ++ "/" ++ current
    let literal :=
      if fs.isDir exactPath then
        appTryPath fs appDir exactPath rest layouts params
      else none
    match literal with
    | some r => some r
    | none =>
      let viaGroups :=
        (getRouteGroups fs dirPath).findSome? (fun group =>
          let groupPath := dirPath ++ "/" ++ group
          let groupLayouts := collectLayout fs groupPath layouts
          let groupExactPath := groupPath ++ "/" ++ current
          let groupLiteral :=
            if fs.isDir groupExactPath then
              appTryPath fs appDir groupExactPath rest groupLayouts params
            else none
          match groupLiteral with
          | some r => some r
          | none =>
            (fs.readdir groupPath).findSome? (fun entry =>
              if jsStartsWith entry "[..." && jsEndsWith entry "]" then
                let dynamicPath := groupPath ++ "/" ++ entry
                if fs.isDir dynamicPath then
                  let paramName := jsDropRight (jsDrop entry 4) 1
                  let newParams := jsMapSet params paramName
                    (ParamVal.strList (current :: rest))
                  appTerminalStep fs appDir dynamicPath
                    (collectLayout fs dynamicPath groupLayouts) newParams
                else none
              else if jsStartsWith entry "[[..." && jsEndsWith entry "]]" then
                let dynamicPath := groupPath ++ "/" ++ entry
                if fs.isDir dynamicPath then
                  let paramName := jsDropRight (jsDrop entry 5) 2
                  let newParams := jsMapSet params paramName
                    (ParamVal.strList (current :: rest))
                  appTerminalStep fs appDir dynamicPath
                    (collectLayout fs dynamicPath groupLayouts) newParams
                else none
              else if jsStartsWith entry "[" && jsEndsWith entry "]" &&
                  !(jsContainsChar entry '.') then
                let dynamicPath := groupPath ++ "/" ++ entry
                if fs.isDir dynamicPath then
                  let paramName := jsDropRight (jsDrop entry 1) 1
                  let newParams := jsMapSet params paramName
                    (ParamVal.str current)
                  appTryPath fs appDir dynamicPath rest groupLayouts newParams
                else none
              else none))
      match viaGroups with
      | some r => some r
      | none =>
        (fs.readdir dirPath).findSome? (fun entry =>
          if jsStartsWith entry "[..." && jsEndsWith entry "]" then
            let dynamicPath := dirPath ++ "/" ++ entry
            if fs.isDir dynamicPath then
              let paramName := jsDropRight (jsDrop entry 4) 1
              let newParams := jsMapSet params paramName
                (ParamVal.strList (current :: rest))
              appTerminalStep fs appDir dynamicPath
                (collectLayout fs dynamicPath layouts) newParams
            else none
          else if jsStartsWith entry "[[..." && jsEndsWith entry "]]" then
            let dynamicPath := dirPath ++ "/" ++ entry
            if fs.isDir dynamicPath then
              let paramName := jsDropRight (jsDrop entry 5) 2
              let newParams := jsMapSet params paramName
                (ParamVal.strList (current :: rest))
              appTerminalStep fs appDir dynamicPath
                (collectLayout fs dynamicPath layouts) newParams
            else none
          else if jsStartsWith entry "[" && jsEndsWith entry "]" &&
              !(jsContainsChar entry '.') then
            let dynamicPath := dirPath ++ "/" ++ entry
            if fs.isDir dynamicPath then
              let paramName := jsDropRight (jsDrop entry 1) 1
              let newParams := jsMapSet params paramName (ParamVal.str current)
              appTryPath fs appDir dynamicPath rest layouts newParams
            else none
          else none)

/-- The root-layout scan at the top of `resolveAppDynamicRoute`: push the
first existing `<appDir>/layout.<ext>` and stop. -/
def rootLayouts (fs : VFS) (appDir : String) : List String :=
  match pageExtensions.findSome? (fun ext =>
    let rootLayout := appDir ++ "/layout" ++ ext
    if fs.pathExists rootLayout then some rootLayout else none) with
  | some p => [p]
  | none => []

/-- `resolveAppDynamicRoute(_, segments)`: collect the root layout and run
the descent from the app directory. -/
def resolveAppDynamicRoute (fs : VFS) (appDir : String)
    (segments : List String) : Option AppRoute :=
  appTryPath fs appDir appDir segments (rootLayouts fs appDir) []

/-- Invariant of an accumulating layouts list: no duplicates, and when the
project root layout exists the list is nonempty with the root layout
first. -/
def LayoutsOk (fs : VFS) (appDir : String) (l : List String) : Prop :=
  l.Nodup ∧
  (rootLayouts fs appDir ≠ [] →
    l ≠ [] ∧ l.head? = (rootLayouts fs appDir).head?)

/-! ## Concrete filesystem fixtures for the resolver claims -/

/-- Pages-router fixture: sibling entries `about` (literal directory with
only the dynamic file `[id].jsx`) and `[slug]` (dynamic directory with
`x.jsx` and the subtree `y/z.jsx`) under the pages root. -/
def fsPages : VFS :=
  { pathExists := fun p =>
      ["/pages/about/[id].jsx", "/pages/[slug]/x.jsx",
        "/pages/[slug]/y/z.jsx"].contains p
    isDir := fun p =>
      ["/pages", "/pages/about", "/pages/[slug]", "/pages/[slug]/y"].contains p
    readdir := fun p =>
      if p == "/pages" then ["about", "[slug]"]
      else if p == "/pages/about" then ["[id].jsx"]
      else if p == "/pages/[slug]" then ["x.jsx", "y"]
      else if p == "/pages/[slug]/y" then ["z.jsx"]
      else [] }

/-- App-router fixture: the page for `/about` lives inside the route
group `(g)`. -/
def fsGrouped : VFS :=
  { pathExists := fun p => ["/app/(g)/about/page.tsx"].contains p
    isDir := fun p => ["/app", "/app/(g)", "/app/(g)/about"].contains p
    readdir := fun p =>
      if p == "/app" then ["(g)"]
      else if p == "/app/(g)" then ["about"]
      else if p == "/app/(g)/about" then ["page.tsx"]
      else [] }

/-- App-router fixture: the page for `/about` lives in a plain `about`
directory. -/
def fsPlain : VFS :=
  { pathExists := fun p => ["/app/about/page.tsx"].contains p
    isDir := fun p => ["/app", "/app/about"].contains p
    readdir := fun p =>
      if p == "/app" then ["about"]
      else if p == "/app/about" then ["page.tsx"]
      else [] }

/-- App-router fixture: a root layout and a page directly inside the
route-group child `(marketing)` of the app root. -/
def fsMarketing : VFS :=
  { pathExists := fun p =>
      ["/app/layout.tsx", "/app/(marketing)/page.tsx"].contains p
    isDir := fun p => ["/app", "/app/(marketing)"].contains p
    readdir := fun p =>
      if p == "/app" then ["layout.tsx", "(marketing)"]
      else if p == "/app/(marketing)" then ["page.tsx"]
      else [] }

/-- App-router fixture: a three-level nested route with a layout at the
root, at level 1, and at level 2. -/
def fsNested : VFS :=
  { pathExists := fun p =>
      ["/app/layout.tsx", "/app/docs/layout.tsx",
        "/app/docs/guide/layout.tsx", "/app/docs/guide/page.tsx"].contains p
    isDir := fun p => ["/app", "/app/docs", "/app/docs/guide"].contains p
    readdir := fun p =>
      if p == "/app" then ["layout.tsx", "docs"]
      else if p == "/app/docs" then ["layout.tsx", "guide"]
      else if p == "/app/docs/guide" then ["layout.tsx", "page.tsx"]
      else [] }

/-! ## Helper lemmas about the JS map model -/

theorem jsMapGet_set_self {α : Type} (m : List (String × α)) (k : String)
    (v : α) : jsMapGet (jsMapSet m k v) k = some v := by
  induction m with
  | nil => simp [jsMapGet, jsMapSet, List.find?]
  | cons p rest ih =>
    obtain ⟨k1, v1⟩ := p
    by_cases h : k1 == k
    · simp [jsMapGet, jsMapSet, List.find?, h]
    · simp only [jsMapSet, h, if_false, Bool.false_eq_true]
      simpa [jsMapGet, List.find?, h] using ih

theorem jsMapGet_cons_none {α : Type} {a : String} {b : α}
    {t : List (String × α)} {k : String}
    (h : jsMapGet ((a, b) :: t) k = none) :
    (a == k) = false ∧ jsMapGet t k = none := by
  by_cases hak : a == k
  · simp [jsMapGet, List.find?, hak] at h
  · constructor
    · simpa using hak
    · simpa [jsMapGet, List.find?, hak] using h

theorem jsMapSet_absent {α : Type} {m : List (String × α)} {k : String}
    (v : α) (h : jsMapGet m k = none) : jsMapSet m k v = m ++ [(k, v)] := by
  induction m with
  | nil => simp [jsMapSet]
  | cons p rest ih =>
    obtain ⟨k1, v1⟩ := p
    obtain ⟨h1, h2⟩ := jsMapGet_cons_none h
    simp [jsMapSet, h1, ih h2]

theorem jsMapSet_present_length {α : Type} {m : List (String × α)}
    {k : String} {w : α} (v : α) (h : jsMapGet m k = some w) :
    (jsMapSet m k v).length = m.length := by
  induction m with
  | nil => simp [jsMapGet, List.find?] at h
  | cons p rest ih =>
    obtain ⟨k1, v1⟩ := p
    by_cases h1 : k1 == k
    · simp [jsMapSet, h1]
    · simp only [jsMapGet, List.find?, h1] at h
      simp [jsMapSet, h1, ih (by simpa [jsMapGet] using h)]

theorem jsMapGet_append_of_none {α : Type} {m : List (String × α)}
    {k : String} (l : List (String × α)) (h : jsMapGet m k = none) :
    jsMapGet (m ++ l) k = jsMapGet l k := by
  induction m with
  | nil => simp
  | cons p rest ih =>
    obtain ⟨k1, v1⟩ := p
    obtain ⟨h1, h2⟩ := jsMapGet_cons_none h
    simp only [List.cons_append, jsMapGet, List.find?, h1]
    exact ih h2

theorem jsMapKeys_set_present {α : Type} {m : List (String × α)} {k : String}
    {w : α} (v : α) (h : jsMapGet m k = some w) :
    jsMapKeys (jsMapSet m k v) = jsMapKeys m := by
  induction m with
  | nil => simp [jsMapGet, List.find?] at h
  | cons p rest ih =>
    obtain ⟨k1, v1⟩ := p
    by_cases h1 : k1 == k
    · simp only [jsMapSet, h1, if_true]
      simp only [jsMapKeys, List.map_cons, List.map]
      have : k1 = k := by simpa using h1
      rw [this]
    · simp only [jsMapGet, List.find?, h1] at h
      simp only [jsMapSet, h1, if_false, Bool.false_eq_true]
      simp only [jsMapKeys, List.map_cons] at *
      rw [ih (by simpa [jsMapGet] using h)]

/-! ## Cache behavior of `transformAndServe` -/

/-- After a miss on a within-bound cache, the freshly stored entry for the
requested path is present (eviction, when it fires, removes the earliest
key, never the just-stored one). -/
theorem transformMiss_get_self (tf : String → String → String)
    (cache : List (String × TEntry)) (p content hash : String)
    (hbound : cache.length ≤ 500) :
    jsMapGet (transformMiss tf cache p content hash).cache p =
      some { code := tf content p, hash := hash } := by
  unfold transformMiss
  dsimp only
  cases hget : jsMapGet cache p with
  | some w =>
    have hlen : (jsMapSet cache p
        { code := tf content p, hash := hash : TEntry }).length = cache.length :=
      jsMapSet_present_length _ hget
    simp only [hlen]
    have : ¬ cache.length > 500 := by omega
    simp only [this, if_false]
    exact jsMapGet_set_self cache p _
  | none =>
    rw [jsMapSet_absent _ hget]
    by_cases hgt : (cache ++ [(p, { code := tf content p, hash := hash : TEntry })]).length > 500
    · simp only [hgt, if_true]
      have hlen : cache.length = 500 := by
        simp only [List.length_append, List.length_cons, List.length_nil] at hgt
        omega
      cases cache with
      | nil => simp at hlen
      | cons q t =>
        obtain ⟨k0, v0⟩ := q
        obtain ⟨h1, h2⟩ := jsMapGet_cons_none hget
        by_cases h0 : k0 == ""
        · simp only [List.cons_append, h0, if_true]
          simp only [jsMapGet, List.find?, h1]
          have := jsMapGet_append_of_none
            (l := [(p, { code := tf content p, hash := hash : TEntry })]) h2
          simpa [jsMapGet, List.find?] using this
        · simp only [List.cons_append, h0, if_false, Bool.false_eq_true]
          have := jsMapGet_append_of_none
            (l := [(p, { code := tf content p, hash := hash : TEntry })]) h2
          simpa [jsMapGet, List.find?] using this
    · simp only [hgt, if_false]
      have := jsMapGet_append_of_none
        (l := [(p, { code := tf content p, hash := hash : TEntry })]) hget
      simpa [jsMapGet, List.find?] using this

/-- On a cache miss the served outcome is `transformMiss` (the stored
entry, if any, has a stale hash). -/
theorem transformAndServe_eq_miss (tf : String → String → String)
    (fs : String → String) (cache : List (String × TEntry)) (p : String)
    (hnohit : ∀ e, jsMapGet cache p = some e → e.hash ≠ simpleHash (fs p)) :
    transformAndServe tf fs cache p =
      transformMiss tf cache p (fs p) (simpleHash (fs p)) := by
  unfold transformAndServe
  dsimp only
  cases hget : jsMapGet cache p with
  | none => rfl
  | some cached =>
    have hne := hnohit cached hget
    have hfalse : (cached.hash == simpleHash (fs p)) = false := by
      simpa using hne
    simp [hfalse]

/-- Claim C2: calling the transform-and-serve operation twice for the same
file path with unchanged file content invokes the transform function
exactly once — the first call is a miss that invokes it, the second a
cache hit that serves the stored compiled code without invoking it —
while changing the file content between the two calls (same path) forces
the transform to be invoked again.  The initial cache is any within-bound
state holding no valid entry for the path (in particular the empty cache
the server starts with). -/
theorem transform_cache_round_trip
    (tf : String → String → String) (fs1 fs2 : String → String)
    (cache : List (String × TEntry)) (p : String)
    (hbound : cache.length ≤ 500)
    (hnohit : ∀ e, jsMapGet cache p = some e → e.hash ≠ simpleHash (fs1 p)) :
    (transformAndServe tf fs1 cache p).cacheHit = false ∧
    (fs2 p = fs1 p →
      (transformAndServe tf fs2 (transformAndServe tf fs1 cache p).cache
          p).cacheHit = true ∧
      (transformAndServe tf fs2 (transformAndServe tf fs1 cache p).cache
          p).code = tf (fs1 p) p) ∧
    (fs2 p ≠ fs1 p →
      (transformAndServe tf fs2 (transformAndServe tf fs1 cache p).cache
          p).cacheHit = false) := by
  have hmiss := transformAndServe_eq_miss tf fs1 cache p hnohit
  have hstored :=
    transformMiss_get_self tf cache p (fs1 p) (simpleHash (fs1 p)) hbound
  refine ⟨by rw [hmiss]; rfl, ?_, ?_⟩
  · intro heq
    rw [hmiss]
    unfold transformAndServe
    dsimp only
    rw [hstored, heq]
    simp [simpleHash]
  · intro hne
    rw [hmiss]
    unfold transformAndServe
    dsimp only
    rw [hstored]
    have hfalse : (simpleHash (fs1 p) == simpleHash (fs2 p)) = false := by
      simp only [simpleHash, beq_eq_false_iff_ne, ne_eq]
      exact fun h => hne (h.symm)
    simp only [hfalse, Bool.false_eq_true, if_false]
    rfl

/-- Witness for C2 at a concrete input: transform is the identity on the
content, content v1 both times (hit) versus v1 then v2 (miss). -/
theorem transform_cache_round_trip_witness :
    (transformAndServe (fun c _ => c ++ "!") (fun _ => "v1") []
        "/a.ts").cacheHit = false ∧
    (transformAndServe (fun c _ => c ++ "!") (fun _ => "v1")
        (transformAndServe (fun c _ => c ++ "!") (fun _ => "v1") []
          "/a.ts").cache "/a.ts").cacheHit = true ∧
    (transformAndServe (fun c _ => c ++ "!") (fun _ => "v2")
        (transformAndServe (fun c _ => c ++ "!") (fun _ => "v1") []
          "/a.ts").cache "/a.ts").cacheHit = false := by
  have h1 := transform_cache_round_trip (fun c _ => c ++ "!")
    (fun _ => "v1") (fun _ => "v1") [] "/a.ts" (by decide)
    (by intro e he; simp [jsMapGet, List.find?] at he)
  have h2 := transform_cache_round_trip (fun c _ => c ++ "!")
    (fun _ => "v1") (fun _ => "v2") [] "/a.ts" (by decide)
    (by intro e he; simp [jsMapGet, List.find?] at he)
  exact ⟨h1.1, (h1.2.1 rfl).1, h2.2.2 (by decide)⟩

/-- Counterexample to claim C3 as stated: compile path `/a.ts` with
content v1, then (same path) with content v2 — which overwrites the
single per-path entry — then revert the file to v1 and request again.
The stored hash is now the hash of v2, so the revert request is a MISS
(`cacheHit = false`) and the transform is re-invoked, contradicting the
claim that the revert is a cache hit even when a different content was
compiled for the path in between. -/
theorem transform_revert_after_overwrite_misses :
    (transformAndServe (fun c _ => c) (fun _ => "v1")
      (transformAndServe (fun c _ => c) (fun _ => "v2")
        (transformAndServe (fun c _ => c) (fun _ => "v1") [] "/a.ts").cache
        "/a.ts").cache
      "/a.ts").cacheHit = false := by decide

/-- Claim C3 (amended): transform-cache staleness is content-addressed,
not timestamp-addressed — a request is a cache hit (no transform
invocation) exactly when the stored entry for the path has `sourceHash`
equal to the hash of the file's current content; consequently reverting
a file to prior content and requesting it again is a cache hit provided
no request compiled different content for that same path in between (an
intermediate compile overwrites the per-path entry, after which the
revert recompiles).  The second conjunct states the legitimate revert:
immediately re-requesting a path whose content is unchanged is always a
hit. -/
theorem transform_cache_hit_iff (tf : String → String → String)
    (fs : String → String) (cache : List (String × TEntry)) (p : String) :
    ((transformAndServe tf fs cache p).cacheHit = true ↔
      ∃ e, jsMapGet cache p = some e ∧ e.hash = simpleHash (fs p)) ∧
    (cache.length ≤ 500 →
      (transformAndServe tf fs (transformAndServe tf fs cache p).cache
          p).cacheHit = true) := by
  constructor
  · unfold transformAndServe
    dsimp only
    cases hget : jsMapGet cache p with
    | none =>
      constructor
      · intro h
        exact absurd h (by simp [transformMiss])
      · rintro ⟨e, he, _⟩
        cases he
    | some cached =>
      by_cases hh : cached.hash == simpleHash (fs p)
      · have heq : cached.hash = simpleHash (fs p) := by simpa using hh
        simp [hh, heq]
      · constructor
        · intro h
          dsimp only at h
          rw [if_neg hh] at h
          exact absurd h (by simp [transformMiss])
        · rintro ⟨e, he, hhash⟩
          injection he with he
          exact absurd (he ▸ hhash) (by simpa using hh)
  · intro hbound
    by_cases hhit : ∃ e, jsMapGet cache p = some e ∧ e.hash = simpleHash (fs p)
    · obtain ⟨e, he, hhash⟩ := hhit
      have h1 : transformAndServe tf fs cache p =
          { cache := cache, code := e.code, cacheHit := true } := by
        unfold transformAndServe
        dsimp only
        rw [he]
        simp [hhash]
      rw [h1]
      unfold transformAndServe
      dsimp only
      rw [he]
      simp [hhash]
    · push_neg at hhit
      have hmiss := transformAndServe_eq_miss tf fs cache p hhit
      have hstored :=
        transformMiss_get_self tf cache p (fs p) (simpleHash (fs p)) hbound
      rw [hmiss]
      unfold transformAndServe
      dsimp only
      rw [hstored]
      simp

/-- Witness for the amended C3 at a concrete input: re-requesting a path
with unchanged content after a compile is a hit. -/
theorem transform_cache_hit_iff_witness :
    (transformAndServe (fun c _ => c) (fun _ => "v")
      (transformAndServe (fun c _ => c) (fun _ => "v") [] "/a.ts").cache
      "/a.ts").cacheHit = true :=
  (transform_cache_hit_iff (fun c _ => c) (fun _ => "v") [] "/a.ts").2
    (by decide)

/-- On a cache hit the outcome serves the stored code and leaves the
cache untouched. -/
theorem transformAndServe_eq_hit (tf : String → String → String)
    (fs : String → String) (cache : List (String × TEntry)) (p : String)
    (e : TEntry) (hget : jsMapGet cache p = some e)
    (hhash : e.hash = simpleHash (fs p)) :
    transformAndServe tf fs cache p =
      { cache := cache, code := e.code, cacheHit := true } := by
  unfold transformAndServe
  dsimp only
  rw [hget]
  simp [hhash]

/-- Bound and eviction behavior of the miss path: on a within-bound cache
with no empty-string key and a nonempty requested path, the store-then-
maybe-evict step keeps the cache within the bound and keeps its keys free
of the empty string; and when the cache was exactly full and the path was
absent, the surviving keys are exactly the old keys minus the earliest one
plus the new path at the end. -/
theorem transformMiss_bound (tf : String → String → String)
    (cache : List (String × TEntry)) (p content hash : String)
    (hkeys : ¬ "" ∈ jsMapKeys cache) (hp : p ≠ "")
    (hbound : cache.length ≤ 500) :
    (transformMiss tf cache p content hash).cache.length ≤ 500 ∧
    ¬ "" ∈ jsMapKeys (transformMiss tf cache p content hash).cache ∧
    (jsMapGet cache p = none → cache.length = 500 →
      jsMapKeys (transformMiss tf cache p content hash).cache =
        (jsMapKeys cache).tail ++ [p]) := by
  generalize hres : jsMapGet cache p = res
  cases res with
  | some w =>
    have hget : jsMapGet cache p = some w := hres
    unfold transformMiss
    dsimp only
    have hlen : (jsMapSet cache p
        { code := tf content p, hash := hash : TEntry }).length = cache.length :=
      jsMapSet_present_length _ hget
    have hkeq : jsMapKeys (jsMapSet cache p
        { code := tf content p, hash := hash : TEntry }) = jsMapKeys cache :=
      jsMapKeys_set_present _ hget
    have hngt : ¬ (jsMapSet cache p
        { code := tf content p, hash := hash : TEntry }).length > 500 := by
      omega
    simp only [hngt, if_false, Bool.false_eq_true]
    refine ⟨by omega, by rw [hkeq]; exact hkeys, ?_⟩
    intro habs
    cases habs
  | none =>
    unfold transformMiss
    dsimp only
    rw [jsMapSet_absent _ hres]
    by_cases hgt :
        (cache ++ [(p, { code := tf content p, hash := hash : TEntry })]).length > 500
    · have hlen : cache.length = 500 := by
        simp only [List.length_append, List.length_cons, List.length_nil] at hgt
        omega
      simp only [hgt, if_true]
      cases cache with
      | nil => simp at hlen
      | cons q t =>
        obtain ⟨k0, v0⟩ := q
        have hk0 : k0 ≠ "" := by
          intro h0
          exact hkeys (by simp [jsMapKeys, h0])
        have hk0f : (k0 == "") = false := by simpa using hk0
        simp only [List.cons_append, hk0f, if_false, Bool.false_eq_true]
        have hlent : t.length = 499 := by
          simp only [List.length_cons] at hlen
          omega
        refine ⟨by simp [hlent], ?_, ?_⟩
        · intro hmem
          simp only [jsMapKeys, List.map_append, List.map_cons, List.map_nil,
            List.mem_append, List.mem_cons, List.mem_singleton] at hmem
          rcases hmem with hmem | hmem
          · exact hkeys (by simp [jsMapKeys]; right; simpa [jsMapKeys] using hmem)
          · simp at hmem
            exact hp hmem.symm
        · intro _ _
          simp [jsMapKeys]
    · simp only [hgt, if_false, Bool.false_eq_true]
      refine ⟨?_, ?_, ?_⟩
      · simp only [List.length_append, List.length_cons, List.length_nil] at *
        omega
      · intro hmem
        simp only [jsMapKeys, List.map_append, List.map_cons, List.map_nil,
          List.mem_append, List.mem_cons, List.mem_singleton] at hmem
        rcases hmem with hmem | hmem
        · exact hkeys (by simpa [jsMapKeys] using hmem)
        · simp at hmem
          exact hp hmem.symm
      · intro _ hlen
        exact absurd hgt (by simp [List.length_append, hlen])

/-- One transform-and-serve step preserves the cache invariant: within the
bound and no empty-string key. -/
theorem transformAndServe_inv (tf : String → String → String)
    (fs : String → String) (cache : List (String × TEntry)) (p : String)
    (hp : p ≠ "") (hbound : cache.length ≤ 500)
    (hkeys : ¬ "" ∈ jsMapKeys cache) :
    (transformAndServe tf fs cache p).cache.length ≤ 500 ∧
    ¬ "" ∈ jsMapKeys (transformAndServe tf fs cache p).cache := by
  by_cases hhit : ∃ e, jsMapGet cache p = some e ∧ e.hash = simpleHash (fs p)
  · obtain ⟨e, hget, hhash⟩ := hhit
    rw [transformAndServe_eq_hit tf fs cache p e hget hhash]
    exact ⟨hbound, hkeys⟩
  · push_neg at hhit
    rw [transformAndServe_eq_miss tf fs cache p hhit]
    have h := transformMiss_bound tf cache p (fs p) (simpleHash (fs p))
      hkeys hp hbound
    exact ⟨h.1, h.2.1⟩

/-- Claim C4: the transform cache is bounded at 500 entries — a hit leaves
the cache untouched (so access order never reorders entries: FIFO, not
LRU), an insertion that makes the cache exceed the bound evicts exactly
the earliest-inserted entry still present (the remaining keys are the old
keys minus the first, plus the new path appended), and any sequence of
transform-and-serve operations on real (nonempty) file paths starting
from the server's empty cache keeps the cache at no more than 500
entries. -/
theorem transform_cache_bound_and_fifo (tf : String → String → String)
    (fs : String → String) (cache : List (String × TEntry)) (p : String)
    (hkeys : ¬ "" ∈ jsMapKeys cache) (hp : p ≠ "")
    (hbound : cache.length ≤ 500) :
    (transformAndServe tf fs cache p).cache.length ≤ 500 ∧
    ((transformAndServe tf fs cache p).cacheHit = true →
      (transformAndServe tf fs cache p).cache = cache) ∧
    (jsMapGet cache p = none → cache.length = 500 →
      jsMapKeys (transformAndServe tf fs cache p).cache =
        (jsMapKeys cache).tail ++ [p]) ∧
    (∀ ops : List ((String → String → String) × (String → String) × String),
      (∀ o ∈ ops, o.2.2 ≠ "") → (runTransforms ops).length ≤ 500) := by
  refine ⟨(transformAndServe_inv tf fs cache p hp hbound hkeys).1, ?_, ?_, ?_⟩
  · by_cases hhit : ∃ e, jsMapGet cache p = some e ∧ e.hash = simpleHash (fs p)
    · obtain ⟨e, hget, hhash⟩ := hhit
      rw [transformAndServe_eq_hit tf fs cache p e hget hhash]
      intro _
      rfl
    · push_neg at hhit
      rw [transformAndServe_eq_miss tf fs cache p hhit]
      intro habs
      exact absurd habs (by simp [transformMiss])
  · intro hget hfull
    have hnohit : ∀ e, jsMapGet cache p = some e → e.hash ≠ simpleHash (fs p) := by
      intro e he
      rw [hget] at he
      cases he
    rw [transformAndServe_eq_miss tf fs cache p hnohit]
    exact (transformMiss_bound tf cache p (fs p) (simpleHash (fs p))
      hkeys hp hbound).2.2 hget hfull
  · have main : ∀ (ops : List ((String → String → String) ×
        (String → String) × String)) (cache0 : List (String × TEntry)),
        (∀ o ∈ ops, o.2.2 ≠ "") → cache0.length ≤ 500 →
        ¬ "" ∈ jsMapKeys cache0 →
        (ops.foldl (fun c op => (transformAndServe op.1 op.2.1 c op.2.2).cache)
          cache0).length ≤ 500 := by
      intro ops
      induction ops with
      | nil => intro cache0 _ hb _; simpa using hb
      | cons o os ih =>
        intro cache0 hne hb hk
        simp only [List.foldl_cons]
        have hstep := transformAndServe_inv o.1 o.2.1 cache0 o.2.2
          (hne o (by simp)) hb hk
        exact ih _ (fun x hx => hne x (by simp [hx])) hstep.1 hstep.2
    intro ops hne
    exact main ops [] hne (by simp) (by simp [jsMapKeys])

/-- Witness for C4 at a concrete input: one insertion into a one-entry
cache stays within the bound. -/
theorem transform_cache_bound_and_fifo_witness :
    (transformAndServe (fun c _ => c) (fun _ => "v")
      [("/a.ts", { code := "c", hash := "h" })] "/b.ts").cache.length ≤ 500 :=
  (transform_cache_bound_and_fifo (fun c _ => c) (fun _ => "v")
    [("/a.ts", { code := "c", hash := "h" })] "/b.ts"
    (by simp [jsMapKeys]) (by decide) (by decide)).1

/-! ## Buffered mock response (C8) -/

/-- Effect of one buffered-response call on the `ended` flag, the
completion-signal count, and `headersSent`. -/
theorem bufStep_facts (s : BufferedRes) (c : ResCall) :
    (BufferedRes.step s c).ended = (s.ended || c.isTerminal) ∧
    (BufferedRes.step s c).headersSent = (s.headersSent || c.isWrite) ∧
    (BufferedRes.step s c).resolveCount =
      s.resolveCount + (if s.ended || !c.isTerminal then 0 else 1) := by
  cases c with
  | status code =>
    simp [BufferedRes.step, ResCall.isTerminal, ResCall.isWrite]
  | setHeader n v =>
    simp [BufferedRes.step, ResCall.isTerminal, ResCall.isWrite]
  | write chunk =>
    simp [BufferedRes.step, ResCall.isTerminal, ResCall.isWrite]
  | json d =>
    cases hse : s.ended <;>
      simp [BufferedRes.step, BufferedRes.markEnded, ResCall.isTerminal,
        ResCall.isWrite, hse]
  | sendStr d =>
    cases hse : s.ended <;>
      simp [BufferedRes.step, BufferedRes.markEnded, ResCall.isTerminal,
        ResCall.isWrite, hse]
  | sendObj d =>
    cases hse : s.ended <;>
      simp [BufferedRes.step, BufferedRes.markEnded, ResCall.isTerminal,
        ResCall.isWrite, hse]
  | endCall data =>
    cases data with
    | none =>
      cases hse : s.ended <;>
        simp [BufferedRes.step, BufferedRes.markEnded, ResCall.isTerminal,
          ResCall.isWrite, hse]
    | some d =>
      by_cases hd : (d == "") = true <;> cases hse : s.ended <;>
        simp [BufferedRes.step, BufferedRes.markEnded, ResCall.isTerminal,
          ResCall.isWrite, hse, hd]
  | redirectCode code url =>
    cases hse : s.ended <;>
      simp [BufferedRes.step, BufferedRes.markEnded, ResCall.isTerminal,
        ResCall.isWrite, hse]
  | redirectUrl url =>
    cases hse : s.ended <;>
      simp [BufferedRes.step, BufferedRes.markEnded, ResCall.isTerminal,
        ResCall.isWrite, hse]

/-- Running a buffered-response call sequence from any state: `ended`
records whether a terminal call occurred, the completion signal fires at
most once (exactly once when a terminal call occurs on a not-yet-ended
state), and `headersSent` records whether a `write` occurred. -/
theorem bufRun_from (calls : List ResCall) : ∀ (s : BufferedRes),
    (calls.foldl BufferedRes.step s).ended =
      (s.ended || calls.any ResCall.isTerminal) ∧
    (calls.foldl BufferedRes.step s).headersSent =
      (s.headersSent || calls.any ResCall.isWrite) ∧
    (calls.foldl BufferedRes.step s).resolveCount =
      s.resolveCount +
        (if s.ended then 0 else if calls.any ResCall.isTerminal then 1 else 0) := by
  induction calls with
  | nil => intro s; simp
  | cons c cs ih =>
    intro s
    simp only [List.foldl_cons, List.any_cons]
    obtain ⟨h1, h2, h3⟩ := ih (BufferedRes.step s c)
    obtain ⟨f1, f2, f3⟩ := bufStep_facts s c
    refine ⟨?_, ?_, ?_⟩
    · rw [h1, f1, Bool.or_assoc]
    · rw [h2, f2, Bool.or_assoc]
    · rw [h3, f3, f1]
      by_cases hse : s.ended = true <;> by_cases ht : c.isTerminal = true <;>
        by_cases hts : cs.any ResCall.isTerminal = true <;>
          simp [hse, ht, hts, Bool.not_eq_true] at *

/-- Counterexample to claim C8 as stated: the single call `json(data)` is
byte-producing (it sets the response body and completes the response) yet
leaves `headersSent` false — on the buffered mock response only `write`
ever sets `headersSent`. -/
theorem buffered_json_leaves_headersSent_false :
    (bufRun [ResCall.json "x"]).responseBody = "x" ∧
    (bufRun [ResCall.json "x"]).ended = true ∧
    (bufRun [ResCall.json "x"]).headersSent = false := by decide

/-- Claim C8 (amended): on the buffered mock response, the
response-complete signal resolves at most once however many terminal
calls occur — exactly once when at least one terminal call occurs and
never otherwise — and `headersSent` becomes true exactly when a `write`
call has occurred: `json`, `send`, and `end` (even with data) do not set
it. -/
theorem buffered_response_signal_once (calls : List ResCall) :
    (bufRun calls).resolveCount ≤ 1 ∧
    (bufRun calls).resolveCount =
      (if calls.any ResCall.isTerminal then 1 else 0) ∧
    (bufRun calls).headersSent = calls.any ResCall.isWrite := by
  obtain ⟨h1, h2, h3⟩ := bufRun_from calls {}
  simp only [bufRun]
  simp only [show ({} : BufferedRes).ended = false from rfl,
    show ({} : BufferedRes).headersSent = false from rfl,
    show ({} : BufferedRes).resolveCount = 0 from rfl, Bool.false_or,
    Bool.false_eq_true, if_false, Nat.zero_add] at h2 h3
  refine ⟨?_, h3, h2⟩
  rw [h3]
  split <;> simp

/-! ## Streaming mock response (C9) -/

theorem sendHeaders_shape (s : StreamingRes) (hs : StreamPreShape s) :
    (s.sendHeaders).headersSent = true ∧ (s.sendHeaders).ended = s.ended ∧
    ∃ (n : Nat) (m : String) (h : List (String × String)) (cs : List String),
      (s.sendHeaders).events = StreamEv.start n m h :: cs.map StreamEv.chunk := by
  rcases hs with ⟨h1, h2⟩ | ⟨h1, n, m, h, cs, h2⟩
  · unfold StreamingRes.sendHeaders
    rw [h1]
    refine ⟨rfl, rfl, s.statusCode, s.statusMessage, s.headers, [], ?_⟩
    simp [h2]
  · unfold StreamingRes.sendHeaders
    rw [h1]
    exact ⟨h1, rfl, n, m, h, cs, h2⟩

theorem markEnded_shape (s : StreamingRes) (hs : StreamPreShape s)
    (he : s.ended = false) :
    (s.markEnded).ended = true ∧
    ∃ (n : Nat) (m : String) (h : List (String × String)) (cs : List String),
      (s.markEnded).events =
        StreamEv.start n m h :: (cs.map StreamEv.chunk ++ [StreamEv.done]) := by
  obtain ⟨hh1, hh2, n, m, h, cs, hh3⟩ := sendHeaders_shape s hs
  unfold StreamingRes.markEnded
  rw [he]
  refine ⟨rfl, n, m, h, cs, ?_⟩
  simp only []
  rw [hh3]
  simp

theorem emit_then_markEnded_shape (s : StreamingRes) (hs : StreamPreShape s)
    (he : s.ended = false) (d : String) :
    (((s.sendHeaders).emitChunk d).markEnded).ended = true ∧
    ∃ (n : Nat) (m : String) (h : List (String × String)) (cs : List String),
      (((s.sendHeaders).emitChunk d).markEnded).events =
        StreamEv.start n m h :: (cs.map StreamEv.chunk ++ [StreamEv.done]) := by
  obtain ⟨hh1, hh2, n, m, h, cs, hh3⟩ := sendHeaders_shape s hs
  have hshape2 : StreamPreShape ((s.sendHeaders).emitChunk d) := by
    right
    refine ⟨hh1, n, m, h, cs ++ [d], ?_⟩
    unfold StreamingRes.emitChunk
    simp only []
    rw [hh3]
    simp
  have hend2 : ((s.sendHeaders).emitChunk d).ended = false := by
    unfold StreamingRes.emitChunk
    simp only []
    rw [hh2, he]
  exact markEnded_shape _ hshape2 hend2

/-- The shape predicate only reads `headersSent` and `events`, so record
updates of the other fields preserve it; stated for the two updates the
streaming methods perform. -/
theorem streamPreShape_setField (s : StreamingRes) (hs : StreamPreShape s)
    (n : Nat) (hd : List (String × String)) :
    StreamPreShape { s with statusCode := n } ∧
    StreamPreShape { s with headers := hd } := by
  rcases hs with ⟨h1, h2⟩ | ⟨h1, a, b, c, cs, h2⟩
  · exact ⟨Or.inl ⟨h1, h2⟩, Or.inl ⟨h1, h2⟩⟩
  · exact ⟨Or.inr ⟨h1, a, b, c, cs, h2⟩, Or.inr ⟨h1, a, b, c, cs, h2⟩⟩

theorem streamStep_nonterminal (s : StreamingRes) (c : ResCall)
    (hc : c.isTerminal = false) (hs : StreamPreShape s)
    (he : s.ended = false) :
    StreamPreShape (s.step c) ∧ (s.step c).ended = false := by
  cases c with
  | status code =>
    exact ⟨(streamPreShape_setField s hs code s.headers).1, he⟩
  | setHeader n v =>
    exact ⟨(streamPreShape_setField s hs s.statusCode
      (jsMapSet s.headers n v)).2, he⟩
  | write chunk =>
    obtain ⟨hh1, hh2, n, m, h, cs, hh3⟩ := sendHeaders_shape s hs
    constructor
    · right
      refine ⟨hh1, n, m, h, cs ++ [chunk], ?_⟩
      show (s.sendHeaders).events ++ [StreamEv.chunk chunk] = _
      rw [hh3]
      simp
    · show ((s.sendHeaders).emitChunk chunk).ended = false
      unfold StreamingRes.emitChunk
      simp only []
      rw [hh2, he]
  | json d => cases hc
  | sendStr d => cases hc
  | sendObj d => cases hc
  | endCall d => cases hc
  | redirectCode a b => cases hc
  | redirectUrl u => cases hc

theorem streamRun_pre (pre : List ResCall)
    (hpre : ∀ c ∈ pre, c.isTerminal = false) :
    ∀ s : StreamingRes, StreamPreShape s → s.ended = false →
      StreamPreShape (pre.foldl StreamingRes.step s) ∧
      (pre.foldl StreamingRes.step s).ended = false := by
  induction pre with
  | nil => intro s hs he; exact ⟨hs, he⟩
  | cons c cs ih =>
    intro s hs he
    simp only [List.foldl_cons]
    obtain ⟨hs2, he2⟩ :=
      streamStep_nonterminal s c (hpre c (by simp)) hs he
    exact ih (fun x hx => hpre x (by simp [hx])) _ hs2 he2

theorem streamStep_terminal (s : StreamingRes) (c : ResCall)
    (ht : c.isTerminal = true) (hs : StreamPreShape s)
    (he : s.ended = false) :
    (s.step c).ended = true ∧
    ∃ (n : Nat) (m : String) (h : List (String × String)) (cs : List String),
      (s.step c).events =
        StreamEv.start n m h :: (cs.map StreamEv.chunk ++ [StreamEv.done]) := by
  cases c with
  | status code => cases ht
  | setHeader n v => cases ht
  | write chunk => cases ht
  | json d =>
    exact emit_then_markEnded_shape _ ((streamPreShape_setField s hs
      s.statusCode (jsMapSet s.headers "Content-Type"
        "application/json; charset=utf-8")).2) he d
  | sendObj d =>
    exact emit_then_markEnded_shape _ ((streamPreShape_setField s hs
      s.statusCode (jsMapSet s.headers "Content-Type"
        "application/json; charset=utf-8")).2) he d
  | sendStr d => exact emit_then_markEnded_shape s hs he d
  | endCall data =>
    cases data with
    | none =>
      show (s.markEnded).ended = true ∧ _
      exact markEnded_shape s hs he
    | some d =>
      by_cases hd : (d == "") = true
      · simp only [StreamingRes.step, hd, if_true]
        exact markEnded_shape s hs he
      · simp only [StreamingRes.step, hd, if_false, Bool.false_eq_true]
        exact emit_then_markEnded_shape s hs he d
  | redirectCode code url =>
    exact markEnded_shape _ (by
      rcases hs with ⟨h1, h2⟩ | ⟨h1, a, b, c2, cs, h2⟩
      · exact Or.inl ⟨h1, h2⟩
      · exact Or.inr ⟨h1, a, b, c2, cs, h2⟩) he
  | redirectUrl u =>
    exact markEnded_shape _ (by
      rcases hs with ⟨h1, h2⟩ | ⟨h1, a, b, c2, cs, h2⟩
      · exact Or.inl ⟨h1, h2⟩
      · exact Or.inr ⟨h1, a, b, c2, cs, h2⟩) he

theorem streamStep_post (s : StreamingRes) (c : ResCall)
    (hc : c.producesChunk = false) (he : s.ended = true) :
    (s.step c).events = s.events ∧ (s.step c).ended = true := by
  cases c with
  | status code => exact ⟨rfl, he⟩
  | setHeader n v => exact ⟨rfl, he⟩
  | write chunk => cases hc
  | json d => cases hc
  | sendStr d => cases hc
  | sendObj d => cases hc
  | endCall data =>
    cases data with
    | none =>
      refine ⟨?_, ?_⟩ <;>
        simp [StreamingRes.step, StreamingRes.markEnded, he]
    | some d =>
      have hd : (d == "") = true := by
        simpa [ResCall.producesChunk] using hc
      refine ⟨?_, ?_⟩ <;>
        simp [StreamingRes.step, StreamingRes.markEnded, he, hd]
  | redirectCode code url =>
    refine ⟨?_, ?_⟩ <;>
      simp [StreamingRes.step, StreamingRes.markEnded, he]
  | redirectUrl u =>
    refine ⟨?_, ?_⟩ <;>
      simp [StreamingRes.step, StreamingRes.markEnded, he]

theorem streamRun_post (post : List ResCall)
    (hpost : ∀ c ∈ post, c.producesChunk = false) :
    ∀ s : StreamingRes, s.ended = true →
      (post.foldl StreamingRes.step s).events = s.events ∧
      (post.foldl StreamingRes.step s).ended = true := by
  induction post with
  | nil => intro s he; exact ⟨rfl, he⟩
  | cons c cs ih =>
    intro s he
    simp only [List.foldl_cons]
    obtain ⟨h1, h2⟩ := streamStep_post s c (hpost c (by simp)) he
    obtain ⟨h3, h4⟩ := ih (fun x hx => hpost x (by simp [hx])) _ h2
    exact ⟨by rw [h3, h1], h4⟩

/-- Counterexample to claim C9 as stated: the empty call sequence produces
no callbacks at all (so `onStart` does not fire exactly once for every
sequence), and the sequence `end(data)` followed by `write` emits an
`onChunk` after `onEnd` (writes after a terminal call still stream). -/
theorem streaming_order_counterexample :
    (streamRun []).events = [] ∧
    (streamRun [ResCall.endCall (some "a"), ResCall.write "b"]).events =
      [StreamEv.start 200 "OK" [], StreamEv.chunk "a", StreamEv.done,
        StreamEv.chunk "b"] := by decide

/-- Claim C9 (amended): for every handler call sequence on the streaming
mock response that contains a terminal call (`json`, `send`, `end`,
`redirect`) and in which no chunk-producing call (`write`, `json`,
`send`, or `end` with truthy data) occurs after the first terminal call,
the callback log is exactly one `onStart`, then all `onChunk` events,
then one `onEnd`: `onStart` fires exactly once strictly before the first
`onChunk`, and `onEnd` fires exactly once strictly after the last
`onChunk`.  (Sequences with no terminal call never fire `onEnd`, and a
chunk-producing call after the terminal call streams after `onEnd`; see
the counterexample.) -/
theorem streaming_callback_order (pre : List ResCall) (t : ResCall)
    (post : List ResCall) (hpre : ∀ c ∈ pre, c.isTerminal = false)
    (ht : t.isTerminal = true)
    (hpost : ∀ c ∈ post, c.producesChunk = false) :
    ∃ (n : Nat) (m : String) (h : List (String × String)) (cs : List String),
      (streamRun (pre ++ t :: post)).events =
        StreamEv.start n m h :: (cs.map StreamEv.chunk ++ [StreamEv.done]) := by
  unfold streamRun
  rw [List.foldl_append]
  simp only [List.foldl_cons]
  obtain ⟨hshape, hend⟩ :=
    streamRun_pre pre hpre {} (Or.inl ⟨rfl, rfl⟩) rfl
  obtain ⟨hend2, n, m, h, cs, hev⟩ :=
    streamStep_terminal _ t ht hshape hend
  obtain ⟨hev2, _⟩ := streamRun_post post hpost _ hend2
  exact ⟨n, m, h, cs, by rw [hev2, hev]⟩

/-- Witness for the amended C9 at a concrete input: a lone `json` call is
a terminal sequence whose last emitted callback is `onEnd`. -/
theorem streaming_callback_order_witness :
    (streamRun [ResCall.json "x"]).events.getLast? = some StreamEv.done := by
  obtain ⟨n, m, h, cs, hev⟩ := streaming_callback_order [] (ResCall.json "x")
    [] (by simp) rfl (by simp)
  simp only [List.nil_append] at hev
  rw [hev, ← List.cons_append, List.getLast?_concat]

/-! ## Route-handler method dispatch (C7) -/

/-- Claim C7: when the route-handler module for a resolved `route.<ext>`
file exports no handler function for the requested HTTP method (neither
under the uppercased method name nor under its lowercased form), the
dispatch step answers 405 Method Not Allowed — an outcome distinct from a
404 Not Found — and the dispatch is case-insensitive in the requested
method name: any two spellings with the same uppercasing dispatch
identically. -/
theorem approute_method_not_allowed (moduleExports : String → JsExportVal)
    (method : String)
    (hupper : moduleExports (jsToUpper method) ≠ JsExportVal.fn)
    (hlower : moduleExports (jsToLower (jsToUpper method)) ≠ JsExportVal.fn) :
    appRouteMethodDispatch method moduleExports =
      DispatchOutcome.rejected 405 "Method Not Allowed" ∧
    (∀ m2, jsToUpper m2 = jsToUpper method →
      appRouteMethodDispatch m2 moduleExports =
        appRouteMethodDispatch method moduleExports) ∧
    (405 : Nat) ≠ 404 := by
  refine ⟨?_, ?_, by decide⟩
  · unfold appRouteMethodDispatch jsOr
    dsimp only
    by_cases htr : (moduleExports (jsToUpper method)).truthy = true
    · rw [if_pos htr]
      rw [if_neg (by simpa using hupper)]
    · rw [if_neg htr]
      rw [if_neg (by simpa using hlower)]
  · intro m2 hm
    unfold appRouteMethodDispatch
    rw [hm]

/-- Witness for C7 at a concrete input: a route module exporting only
`GET`, requested with `POST` (and with the spelling `post`), is rejected
with 405. -/
theorem approute_method_not_allowed_witness :
    appRouteMethodDispatch "POST"
      (fun k => if k == "GET" then JsExportVal.fn else JsExportVal.undef) =
      DispatchOutcome.rejected 405 "Method Not Allowed" ∧
    appRouteMethodDispatch "post"
      (fun k => if k == "GET" then JsExportVal.fn else JsExportVal.undef) =
      appRouteMethodDispatch "POST"
      (fun k => if k == "GET" then JsExportVal.fn else JsExportVal.undef) := by
  have h := approute_method_not_allowed
    (fun k => if k == "GET" then JsExportVal.fn else JsExportVal.undef)
    "POST" (by decide) (by decide)
  exact ⟨h.1, h.2.1 "post" (by decide)⟩

/-! ## Pages-router API requests never see query parameters (C10) -/

theorem takeUntilChar_no_char (c : Char) (s : String) :
    ¬ c ∈ (takeUntilChar c s).data := by
  intro hmem
  have := List.mem_takeWhile_imp hmem
  simp at this

theorem takeUntilChar_subset (c : Char) (s : String) :
    ∀ x ∈ (takeUntilChar c s).data, x ∈ s.data := by
  intro x hx
  exact (List.takeWhile_sublist _).subset hx

theorem dropThroughChar_of_no_char (c : Char) (s : String)
    (h : ¬ c ∈ s.data) : dropThroughChar c s = "" := by
  unfold dropThroughChar
  have hall : ∀ x ∈ s.data, (fun x => x != c) x = true := by
    intro x hx
    by_cases hxc : x = c
    · exact absurd (hxc ▸ hx) h
    · simpa using hxc
  rw [List.dropWhile_eq_nil_iff.mpr (by simpa using hall)]

/-- On a pathname free of `?` and `#`, the re-parse performed by
`createMockRequest` yields no search params. -/
theorem urlSearchPairs_of_no_query (p : String) (h : ¬ '?' ∈ p.data) :
    urlSearchPairs p = [] := by
  unfold urlSearchPairs urlSearchText
  have hnoq : ¬ '?' ∈ (takeUntilChar '#' p).data := by
    intro hmem
    exact h (takeUntilChar_subset '#' p '?' hmem)
  rw [dropThroughChar_of_no_char '?' _ hnoq]
  rfl

/-- The parsed `urlObj.pathname` contains neither `?` nor `#`. -/
theorem urlPathname_no_delims (url : String) :
    ¬ '?' ∈ (urlPathname url).data ∧ ¬ '#' ∈ (urlPathname url).data := by
  constructor
  · exact takeUntilChar_no_char '?' _
  · intro hmem
    exact takeUntilChar_no_char '#' url
      (takeUntilChar_subset '?' _ '#' hmem)

theorem jsDrop_no_char (c : Char) (s : String) (n : Nat)
    (h : ¬ c ∈ s.data) : ¬ c ∈ (jsDrop s n).data := by
  intro hmem
  exact h ((List.drop_sublist n s.data).subset hmem)

/-- The prefix-stripping steps of `handleRequest` preserve the absence of
a character (they return the pathname itself, a character-drop suffix of
it, or the root path). -/
theorem stripVirtualPre_no_char (c : Char) (p : String) (hc : c ≠ '/')
    (h : ¬ c ∈ p.data) : ¬ c ∈ (stripVirtualPre p).data := by
  unfold stripVirtualPre
  dsimp only
  repeat' split
  all_goals first
    | exact h
    | exact jsDrop_no_char c _ _ h
    | simpa using fun heq => hc heq

theorem stripAssetPre_no_char (c : Char) (assetPre p : String) (hc : c ≠ '/')
    (h : ¬ c ∈ p.data) : ¬ c ∈ (stripAssetPre assetPre p).data := by
  unfold stripAssetPre
  dsimp only
  repeat' split
  all_goals first
    | exact h
    | exact jsDrop_no_char c _ _ h
    | simpa using fun heq => hc heq
    | exact jsDrop_no_char c _ _ (by simpa using fun heq => hc heq)
    | exact jsDrop_no_char c _ _ (jsDrop_no_char c _ _ h)

theorem stripBasePath_no_char (c : Char) (basePath p : String) (hc : c ≠ '/')
    (h : ¬ c ∈ p.data) : ¬ c ∈ (stripBasePath basePath p).data := by
  unfold stripBasePath
  dsimp only
  repeat' split
  all_goals first
    | exact h
    | exact jsDrop_no_char c _ _ h
    | simpa using fun heq => hc heq

/-- Claim C10: for every Pages-router API request, the mock request's
query mapping is empty regardless of any query string in the requested
url: the dispatcher passes only the pathname (search stripped by the URL
parse, then possibly prefix-stripped) into `createMockRequest`, which
derives `query` from a URL built from that bare pathname — so API
handlers never observe query parameters through `req.query`.  The second
conjunct is the underlying general fact: `createMockRequest` on any
pathname free of `?` builds an empty query. -/
theorem api_mock_request_query_empty (assetPre basePath method url : String)
    (headers : List (String × String)) (body : Option String) :
    (apiMockRequest assetPre basePath method url headers body).query = [] ∧
    (∀ p : String, ¬ '?' ∈ p.data →
      (createMockRequest method p headers body).query = []) := by
  have hgen : ∀ p : String, ¬ '?' ∈ p.data →
      (createMockRequest method p headers body).query = [] := by
    intro p hp
    unfold createMockRequest
    dsimp only
    exact urlSearchPairs_of_no_query p hp
  refine ⟨?_, hgen⟩
  unfold apiMockRequest requestPathname
  apply hgen
  apply stripBasePath_no_char _ _ _ (by decide)
  apply stripAssetPre_no_char _ _ _ (by decide)
  apply stripVirtualPre_no_char _ _ (by decide)
  exact (urlPathname_no_delims url).1

/-- Witness for C10 at a concrete input: an API request whose url carries
a query string still yields an empty `req.query`. -/
theorem api_mock_request_query_empty_witness :
    (apiMockRequest "" "" "GET" "/api/hello?a=1&b=2" [] none).query = [] ∧
    (createMockRequest "GET" "/api/hello" [] none).query = [] := by
  have h := api_mock_request_query_empty "" "" "GET" "/api/hello?a=1&b=2"
    [] none
  exact ⟨h.1, h.2 "/api/hello" (by decide)⟩

/-! ## Pages-router literal precedence and backtracking (C1) -/

/-- Claim C1: with sibling entries `about` (literal) and `[slug]`
(dynamic) under the pages root, both able to match the first URL segment:
(first conjunct) `/about/x` resolves inside the literal `about` branch
(via its dynamic file `[id].jsx`) even though `/pages/[slug]/x.jsx` also
matches — the literal branch is tried first; (second conjunct)
`/about/y/z` finds nothing in the literal `about` subtree, so resolution
backtracks and the URL still resolves via the sibling dynamic `[slug]`
branch at `/pages/[slug]/y/z.jsx`. -/
theorem pages_literal_precedence_and_backtracking :
    resolvePageFile fsPages "/pages" "/about/x" =
      some "/pages/about/[id].jsx" ∧
    resolvePageFile fsPages "/pages" "/about/y/z" =
      some "/pages/[slug]/y/z.jsx" := by decide

/-! ## Route-group transparency (C5) -/

/-- Claim C5: route groups are transparent to the URL.  A page at
`(g)/about/page.tsx` resolves for URL `/about` exactly as a non-grouped
`about/page.tsx` does — both succeed, with the respective physical page
file and identical params, layouts, and convention files — and a page
directly inside the route-group child `(marketing)` of the terminal
directory satisfies the terminal URL `/` (with the root layout
collected). -/
theorem approuter_route_group_transparency :
    resolveAppDynamicRoute fsGrouped "/app" ["about"] =
      some { page := "/app/(g)/about/page.tsx", layouts := [], params := [] } ∧
    resolveAppDynamicRoute fsPlain "/app" ["about"] =
      some { page := "/app/about/page.tsx", layouts := [], params := [] } ∧
    resolveAppDynamicRoute fsMarketing "/app" [] =
      some { page := "/app/(marketing)/page.tsx",
             layouts := ["/app/layout.tsx"], params := [] } := by decide

/-! ## Layouts invariant of the App-router resolver (C6) -/

/-- `collectLayout` either returns the list unchanged or appends a single
layout path that is not already collected. -/
theorem collectLayout_eq (fs : VFS) (d : String) (l : List String) :
    collectLayout fs d l = l ∨
    ∃ p, ¬ p ∈ l ∧ collectLayout fs d l = l ++ [p] := by
  unfold collectLayout
  cases hfind : pageExtensions.findSome? (fun ext =>
      let layoutPath := d ++ "/layout" ++ ext
      if fs.pathExists layoutPath && !(l.contains layoutPath) then
        some layoutPath
      else none) with
  | none => exact Or.inl rfl
  | some p =>
    right
    obtain ⟨ext, hmem, hext⟩ := List.exists_of_findSome?_eq_some hfind
    dsimp only at hext
    refine ⟨p, ?_, rfl⟩
    split at hext
    · rename_i hcond
      injection hext with hext
      subst hext
      have := (Bool.and_eq_true _ _).mp hcond
      simpa using this.2
    · cases hext

theorem collectLayout_ok (fs : VFS) (appDir d : String) (l : List String)
    (h : LayoutsOk fs appDir l) :
    LayoutsOk fs appDir (collectLayout fs d l) ∧
    ∃ t, collectLayout fs d l = l ++ t := by
  rcases collectLayout_eq fs d l with heq | ⟨p, hnp, heq⟩
  · rw [heq]
    exact ⟨h, [], by simp⟩
  · rw [heq]
    obtain ⟨h1, h2⟩ := h
    refine ⟨⟨by simp [List.nodup_append, h1, hnp], ?_⟩, [p], rfl⟩
    intro hroot
    obtain ⟨hne, hh⟩ := h2 hroot
    cases l with
    | nil => exact absurd rfl hne
    | cons a t => exact ⟨by simp, by simpa using hh⟩

/-- `mkAppRoute` stores exactly the supplied layouts list. -/
theorem mkAppRoute_layouts (fs : VFS) (appDir page : String)
    (layouts : List String) (params : List (String × ParamVal))
    (dirPath : String) :
    (mkAppRoute fs appDir page layouts params dirPath).layouts = layouts :=
  rfl

theorem appTerminalStep_layouts (fs : VFS) (appDir d : String)
    (l : List String) (params : List (String × ParamVal)) (route : AppRoute)
    (h : LayoutsOk fs appDir l)
    (hstep : appTerminalStep fs appDir d l params = some route) :
    LayoutsOk fs appDir route.layouts ∧ ∃ t, route.layouts = l ++ t := by
  unfold appTerminalStep at hstep
  cases hfp : findPage fs d with
  | some page =>
    rw [hfp] at hstep
    injection hstep with hstep
    subst hstep
    exact ⟨h, [], by simp [mkAppRoute]⟩
  | none =>
    rw [hfp] at hstep
    obtain ⟨group, hgmem, hg⟩ := List.exists_of_findSome?_eq_some hstep
    dsimp only at hg
    cases hfp2 : findPage fs (d ++ "/" ++ group) with
    | some page =>
      rw [hfp2] at hg
      injection hg with hg
      subst hg
      obtain ⟨hok, t, ht⟩ := collectLayout_ok fs appDir (d ++ "/" ++ group) l h
      exact ⟨hok, t, ht⟩
    | none => rw [hfp2] at hg; cases hg

/-- Terminal step reached through one more `collectLayout` (the inlined
catch-all branches): invariant and append-extension over the incoming
accumulator. -/
theorem terminal_after_collect (fs : VFS) (appDir dyn : String)
    (gl : List String) (params : List (String × ParamVal)) (r : AppRoute)
    (hokg : LayoutsOk fs appDir gl)
    (hstep : appTerminalStep fs appDir dyn (collectLayout fs dyn gl) params =
      some r) :
    LayoutsOk fs appDir r.layouts ∧ ∃ t, r.layouts = gl ++ t := by
  obtain ⟨hokc, tc, htc⟩ := collectLayout_ok fs appDir dyn gl hokg
  obtain ⟨hok2, t2, ht2⟩ :=
    appTerminalStep_layouts fs appDir dyn _ params r hokc hstep
  exact ⟨hok2, tc ++ t2, by rw [ht2, htc, List.append_assoc]⟩

/-- Core induction: every route produced by `tryPath` from an
invariant-satisfying layouts accumulator has an invariant-satisfying
layouts list that extends the accumulator by appending. -/
theorem appTryPath_layouts_ok (fs : VFS) (appDir : String) :
    ∀ (remaining : List String) (d : String) (l : List String)
      (params : List (String × ParamVal)) (route : AppRoute),
      LayoutsOk fs appDir l →
      appTryPath fs appDir d remaining l params = some route →
      LayoutsOk fs appDir route.layouts ∧ ∃ t, route.layouts = l ++ t := by
  intro remaining
  induction remaining with
  | nil =>
    intro d l params route h hstep
    obtain ⟨hok, t1, ht1⟩ := collectLayout_ok fs appDir d l h
    obtain ⟨hok2, t2, ht2⟩ := appTerminalStep_layouts fs appDir d
      (collectLayout fs d l) params route hok hstep
    exact ⟨hok2, t1 ++ t2, by rw [ht2, ht1, List.append_assoc]⟩
  | cons current rest ih =>
    intro d l params route h hstep
    obtain ⟨hok, t1, ht1⟩ := collectLayout_ok fs appDir d l h
    have comp : ∀ (l2 : List String),
        (∃ t, l2 = collectLayout fs d l ++ t) →
        (LayoutsOk fs appDir route.layouts ∧ ∃ t, route.layouts = l2 ++ t) →
        LayoutsOk fs appDir route.layouts ∧ ∃ t, route.layouts = l ++ t := by
      rintro l2 ⟨ta, hta⟩ ⟨hok2, tb, htb⟩
      exact ⟨hok2, t1 ++ ta ++ tb, by
        rw [htb, hta, ht1]
        simp [List.append_assoc]⟩
    unfold appTryPath at hstep
    dsimp only at hstep
    split at hstep
    · rename_i r heq
      injection hstep with hstep
      subst hstep
      split at heq
      · exact comp _ ⟨[], by simp⟩ (ih _ _ _ _ hok heq)
      · cases heq
    · split at hstep
      · rename_i r heq
        injection hstep with hstep
        subst hstep
        obtain ⟨group, hgmem, hg⟩ := List.exists_of_findSome?_eq_some heq
        try dsimp only at hg
        obtain ⟨hokg, tg, htg⟩ :=
          collectLayout_ok fs appDir (d ++ "/" ++ group)
            (collectLayout fs d l) hok
        split at hg
        · rename_i r2 heq2
          injection hg with hg
          subst hg
          split at heq2
          · exact comp _ ⟨tg, htg⟩ (ih _ _ _ _ hokg heq2)
          · cases heq2
        · obtain ⟨entry, hemem, hent⟩ := List.exists_of_findSome?_eq_some hg
          try dsimp only at hent
          repeat' split at hent
          all_goals first
            | cases hent
            | exact comp _ ⟨tg, htg⟩
                (terminal_after_collect fs appDir _ _ _ _ hokg hent)
            | exact comp _ ⟨tg, htg⟩ (ih _ _ _ _ hokg hent)
      · obtain ⟨entry, hemem, hent⟩ := List.exists_of_findSome?_eq_some hstep
        try dsimp only at hent
        repeat' split at hent
        all_goals first
          | cases hent
          | exact comp _ ⟨[], by simp⟩
              (terminal_after_collect fs appDir _ _ _ _ hok hent)
          | exact comp _ ⟨[], by simp⟩ (ih _ _ _ _ hok hent)

/-- Claim C6: for every `AppRoute` produced by App-router resolution, the
`layouts` list contains no duplicates, is ordered root to leaf (the
root-layout scan result comes first and every nested layout is appended
after it in descent order — the list always extends the initial root
scan by appends), and its first entry, if any root layout exists, is the
project root layout.  The second conjunct checks the spec's 3-level
example: layouts at the root, level 1, and level 2 yield exactly
`[root, level1, level2]`. -/
theorem approuter_layouts_invariant :
    (∀ (fs : VFS) (appDir : String) (segments : List String)
      (route : AppRoute),
      resolveAppDynamicRoute fs appDir segments = some route →
      route.layouts.Nodup ∧
      (∃ t, route.layouts = rootLayouts fs appDir ++ t) ∧
      (rootLayouts fs appDir ≠ [] →
        route.layouts.head? = (rootLayouts fs appDir).head?)) ∧
    (resolveAppDynamicRoute fsNested "/app" ["docs", "guide"]).map
        (fun r => r.layouts) =
      some ["/app/layout.tsx", "/app/docs/layout.tsx",
        "/app/docs/guide/layout.tsx"] := by
  constructor
  · intro fs appDir segments route hres
    have hinit : LayoutsOk fs appDir (rootLayouts fs appDir) := by
      constructor
      · unfold rootLayouts
        split <;> simp
      · intro hne
        exact ⟨hne, rfl⟩
    obtain ⟨⟨hnodup, hhead⟩, t, ht⟩ := appTryPath_layouts_ok fs appDir
      segments appDir (rootLayouts fs appDir) [] route hinit hres
    exact ⟨hnodup, ⟨t, ht⟩, fun hroot => (hhead hroot).2⟩
  · decide

/-- Witness for C6 at a concrete input: the 3-level nested route's
layouts list (computed concretely) is duplicate-free by the general
theorem. -/
theorem approuter_layouts_invariant_witness :
    (["/app/layout.tsx", "/app/docs/layout.tsx",
      "/app/docs/guide/layout.tsx"] : List String).Nodup := by
  have hres : resolveAppDynamicRoute fsNested "/app" ["docs", "guide"] =
      some { page := "/app/docs/guide/page.tsx",
             layouts := ["/app/layout.tsx", "/app/docs/layout.tsx",
               "/app/docs/guide/layout.tsx"],
             params := [] } := by decide
  exact (approuter_layouts_invariant.1 fsNested "/app" ["docs", "guide"]
    _ hres).1

end NextDevServer
